import Mathlib

/-!
Shallow embedding of the Wails dev-mode websocket relay
(v2/internal/frontend/devserver/devserver.go) and of the browser-side IPC
client script, together with the routing set up by DevWebServer.Run.

Messages are modelled as their character sequences (Go handles them as
byte strings; every protocol prefix involved is ASCII).  The external JSON
decoder (encoding/json.Unmarshal) and the external request dispatcher
(frontend.Dispatcher.ProcessMessage, repository code that is not part of
the relay) are passed in as function parameters.
-/

/-- a complete application-level message or transport frame, as its
sequence of characters. -/
abbrev Msg := List Char

namespace DevServer

/-- translation of bytes.HasPrefix from the Go standard library, as used on
the first frame by the reassembly loop. -/
def hasPrefixB (s p : Msg) : Bool :=
  s.take p.length == p

/-- translation of bytes.HasSuffix from the Go standard library, as used on
each received frame by the reassembly loop. -/
def hasSuffixB (s p : Msg) : Bool :=
  s.drop (s.length - p.length) == p

/-- inner loop of the frame reassembly in handleIPCWebSocket: while the most
recently received frame does not end in the two bytes quote brace, a further
frame is read and appended to the buffer.  The result is the reassembled
message together with the frames left unread, or none when the frame stream
is exhausted mid-reassembly (the read-error path, which tears the connection
down and discards the partial buffer). -/
def reassembleLoop : Msg → Msg → List Msg → Option (Msg × List Msg)
  | buf, msg, rest =>
    if hasSuffixB msg ['"', '}'] then
      some (buf, rest)
    else
      match rest with
      | [] => none
      | m :: rs => reassembleLoop (buf ++ m) m rs

/-- frame reassembly for one complete message in handleIPCWebSocket: the
first frame is written to the buffer; only when that first frame begins with
the three bytes C brace quote does the loop keep appending further frames
until the most recently received frame ends with quote brace.  Returns the
complete message and the unconsumed frames. -/
def reassembleOne : List Msg → Option (Msg × List Msg)
  | [] => none
  | msg :: rest =>
    if hasPrefixB msg ['C', '{', '"'] then
      reassembleLoop msg msg rest
    else
      some (msg, rest)

/-- one registered websocket connection: its identity (standing for the
websocket.Conn pointer used as the registry key) and the contents of its
WebsocketInfo eventCache. -/
structure Conn where
  id : Nat
  subs : List Msg
  deriving DecidableEq

/-- the EventNotify JSON shape with fields name and data, decoded from an
event payload (data is a list of opaque values in Go; its elements are
opaque here as well). -/
structure EventNotify where
  name : Msg
  data : List Msg
  deriving DecidableEq

/-- sync.Map.Store of an event name on a connection's eventCache: the key
becomes present. -/
def storeEvent (subs : List Msg) (nm : Msg) : List Msg :=
  if nm ∈ subs then subs else nm :: subs

/-- sync.Map.Delete of an event name on a connection's eventCache: the key
becomes absent. -/
def deleteEvent (subs : List Msg) (nm : Msg) : List Msg :=
  subs.filter (fun s => decide (s ≠ nm))

/-- DevWebServer.broadcast: one delivery task per registered client; a client
is skipped exactly when a required event name is given (the name is nonempty)
and its eventCache does not contain that name.  The result lists the
(client identity, message) sends performed. -/
def broadcast (clients : List Conn) (message : Msg) (name : Msg) :
    List (Nat × Msg) :=
  clients.filterMap fun c =>
    if name ≠ [] ∧ name ∉ c.subs then none else some (c.id, message)

/-- DevWebServer.broadcastExcludingSender: every registered client other
than the sender is sent the message, with no subscription filtering. -/
def broadcastExcludingSender (clients : List Conn) (message : Msg)
    (sender : Nat) : List (Nat × Msg) :=
  clients.filterMap fun c =>
    if c.id = sender then none else some (c.id, message)

/-- observable effects of DevWebServer.notifyExcludingSender: the websocket
sends performed, the direct host-frontend notification (at most one), and
whether a JSON decode error was logged. -/
structure NotifyEffects where
  deliveries : List (Nat × Msg)
  hostNotify : Option EventNotify
  decodeErrorLogged : Bool
  deriving DecidableEq

/-- DevWebServer.notifyExcludingSender: the first two bytes of the event
message are replaced by the single byte n and the result is broadcast to
every client except the sender; the remainder is then JSON-decoded
(json.Unmarshal, passed in as decode) and on success the host frontend is
notified once; on failure the error is logged, after the broadcast has
already happened, and only the host notification is skipped. -/
def notifyExcludingSender (decode : Msg → Option EventNotify)
    (clients : List Conn) (eventMessage : Msg) (sender : Nat) :
    NotifyEffects :=
  let message := 'n' :: eventMessage.drop 2
  let ds := broadcastExcludingSender clients message sender
  match decode (eventMessage.drop 2) with
  | none => { deliveries := ds, hostNotify := none, decodeErrorLogged := true }
  | some ev =>
      { deliveries := ds, hostNotify := some ev, decodeErrorLogged := false }

/-- handling of one dispatcher call in the read loop: ProcessMessage returns
a textual result together with an optional error (the Go pair of result and
err); the error, when present, is logged; the result is written back exactly
when it is nonempty.  First component: the response written back to the
sending connection; second component: whether an error was logged. -/
def processDispatch (dispatch : Msg → Msg × Option Msg) (msg : Msg) :
    Option Msg × Bool :=
  let r := dispatch msg
  (if r.1 = [] then none else some r.1, r.2.isSome)

/-- observable effects of one iteration of the handleIPCWebSocket read loop
on one complete message: the rebroadcast deliveries to other clients, the
direct host notification, the message handed to the dispatcher (if any), the
response written back to the sending connection (if any), the sender's
updated eventCache, and the errors logged. -/
structure StepEffects where
  deliveries : List (Nat × Msg)
  hostNotify : Option EventNotify
  dispatched : Option Msg
  response : Option Msg
  newSubs : List Msg
  dispatchErrorLogged : Bool
  decodeErrorLogged : Bool
  deriving DecidableEq

/-- body of the handleIPCWebSocket read loop for one complete message:
the exact message drag is dropped with no effect at all; for messages longer
than two bytes the first two bytes are inspected: EE rebroadcasts via
notifyExcludingSender and then still falls through to the dispatcher, EB
stores the event name and skips the dispatcher (continue), EX deletes the
event name and falls through to the dispatcher; every other message goes to
the dispatcher verbatim, whose nonempty result is written back to the same
connection. -/
def handleIPCMessage (decode : Msg → Option EventNotify)
    (dispatch : Msg → Msg × Option Msg)
    (clients : List Conn) (sender : Conn) (fullMsg : Msg) : StepEffects :=
  if fullMsg.length = 4 ∧ fullMsg = ['d', 'r', 'a', 'g'] then
    { deliveries := [], hostNotify := none, dispatched := none,
      response := none, newSubs := sender.subs,
      dispatchErrorLogged := false, decodeErrorLogged := false }
  else if 2 < fullMsg.length ∧ fullMsg.take 2 = ['E', 'E'] then
    let n := notifyExcludingSender decode clients fullMsg sender.id
    let r := processDispatch dispatch fullMsg
    { deliveries := n.deliveries, hostNotify := n.hostNotify,
      dispatched := some fullMsg, response := r.1, newSubs := sender.subs,
      dispatchErrorLogged := r.2, decodeErrorLogged := n.decodeErrorLogged }
  else if 2 < fullMsg.length ∧ fullMsg.take 2 = ['E', 'B'] then
    { deliveries := [], hostNotify := none, dispatched := none,
      response := none, newSubs := storeEvent sender.subs (fullMsg.drop 2),
      dispatchErrorLogged := false, decodeErrorLogged := false }
  else if 2 < fullMsg.length ∧ fullMsg.take 2 = ['E', 'X'] then
    let r := processDispatch dispatch fullMsg
    { deliveries := [], hostNotify := none, dispatched := some fullMsg,
      response := r.1, newSubs := deleteEvent sender.subs (fullMsg.drop 2),
      dispatchErrorLogged := r.2, decodeErrorLogged := false }
  else
    let r := processDispatch dispatch fullMsg
    { deliveries := [], hostNotify := none, dispatched := some fullMsg,
      response := r.1, newSubs := sender.subs,
      dispatchErrorLogged := r.2, decodeErrorLogged := false }

/-- observable effects of DevWebServer.WindowReload: the broadcast sends and
the desktop-frontend window reload. -/
structure ReloadEffects where
  deliveries : List (Nat × Msg)
  hostReload : Bool
  deriving DecidableEq

/-- DevWebServer.WindowReload: broadcasts the message reload with no
required event name (so no client is filtered out) and reloads the desktop
frontend window. -/
def windowReload (clients : List Conn) : ReloadEffects :=
  { deliveries := broadcast clients ['r', 'e', 'l', 'o', 'a', 'd'] [],
    hostReload := true }

/-- Modelled from the spec: the external Dispatcher
(frontend.Dispatcher.ProcessMessage, repository code not under src/) gives
the exact textual message reload the highest-priority classification, the
reload signal, which fires the host's window-reload action
(DevWebServer.WindowReload). -/
def dispatcherTriggersReload (msg : Msg) : Bool :=
  msg == ['r', 'e', 'l', 'o', 'a', 'd']

/-- state of the browser-side IPC client: whether wailsInvokeInternal is
installed (a usable socket exists), the messageQueue contents, and the log
of messages actually handed to websocket.send, in order. -/
structure ClientState where
  connected : Bool
  queue : List Msg
  sent : List Msg
  deriving DecidableEq

/-- window.WailsInvoke: while no usable socket exists the message is pushed
onto messageQueue; otherwise it is sent on the websocket immediately. -/
def wailsInvoke (s : ClientState) (message : Msg) : ClientState :=
  if s.connected then { s with sent := s.sent ++ [message] }
  else { s with queue := s.queue ++ [message] }

/-- setupIPCBridge, run on a successful socket open: wailsInvokeInternal is
installed first, then every queued message is re-submitted through
window.WailsInvoke in queue order (each is now sent, not re-queued), and
messageQueue is reset to empty. -/
def setupIPCBridge (s : ClientState) : ClientState :=
  let s1 := s.queue.foldl wailsInvoke { s with connected := true }
  { s1 with queue := [] }

/-- route targets registered by DevWebServer.Run. -/
inductive RouteTarget where
  | reloadEndpoint
  | ipcEndpoint
  | assetdirEndpoint
  | catchAllRoute
  deriving DecidableEq

/-- routing set up in DevWebServer.Run: /wails/reload and /wails/ipc have
dedicated handlers; /wails/assetdir is registered only when no frontend dev
server URL is configured; every other path falls to the catch-all route. -/
def route (frontendDevServerURL : String) (path : String) : RouteTarget :=
  if path = "/wails/reload" then RouteTarget.reloadEndpoint
  else if path = "/wails/ipc" then RouteTarget.ipcEndpoint
  else if frontendDevServerURL = "" ∧ path = "/wails/assetdir" then
    RouteTarget.assetdirEndpoint
  else RouteTarget.catchAllRoute

/-- whether DevWebServer.Run leaves wsHandler nil: it is assigned only in
the branch where a frontend dev server URL is configured. -/
def wsHandlerIsNil (frontendDevServerURL : String) : Bool :=
  frontendDevServerURL == ""

/-- outcome of serving one request in the catch-all route body of
DevWebServer.Run. -/
inductive CatchAllOutcome where
  | nilHandlerCall
  | proxiedToDevServer
  | servedByAssetServer
  deriving DecidableEq

/-- body of the catch-all route: websocket upgrades call wsHandler.ServeHTTP
(a method call on the nil handler when none was configured, the unguarded
error branch); every other request goes to the asset server. -/
def catchAllHandler (frontendDevServerURL : String) (isWS : Bool) :
    CatchAllOutcome :=
  if isWS then
    if wsHandlerIsNil frontendDevServerURL then CatchAllOutcome.nilHandlerCall
    else CatchAllOutcome.proxiedToDevServer
  else CatchAllOutcome.servedByAssetServer

/-! Helper lemmas shared by the claim theorems. -/

/-- helper: when neither the starting frame nor any further frame before the
last ends in quote brace, and the last frame does, the reassembly loop
consumes every remaining frame and returns the full concatenation. -/
lemma reassembleLoop_complete (mids : List Msg) :
    ∀ buf msg last : Msg,
    hasSuffixB msg ['"', '}'] = false →
    (∀ f ∈ mids, hasSuffixB f ['"', '}'] = false) →
    hasSuffixB last ['"', '}'] = true →
    reassembleLoop buf msg (mids ++ [last]) =
      some (buf ++ mids.flatten ++ last, []) := by
  induction mids with
  | nil =>
    intro buf msg last h1 _ h3
    rw [reassembleLoop.eq_def]
    simp only [h1, Bool.false_eq_true, if_false, List.nil_append]
    rw [reassembleLoop.eq_def]
    simp [h3]
  | cons m rs ih =>
    intro buf msg last h1 h2 h3
    rw [reassembleLoop.eq_def]
    simp only [h1, Bool.false_eq_true, if_false, List.cons_append]
    have := ih (buf ++ m) m last (h2 m (by simp))
      (fun f hf => h2 f (by simp [hf])) h3
    simpa [List.append_assoc] using this

/-- helper: a connection never appears as a recipient of a broadcast that
excludes it as the sender. -/
lemma not_mem_broadcastExcludingSender (clients : List Conn) (message : Msg)
    (sender : Nat) (m : Msg) :
    (sender, m) ∉ broadcastExcludingSender clients message sender := by
  intro hmem
  rw [broadcastExcludingSender, List.mem_filterMap] at hmem
  obtain ⟨c, _, heq⟩ := hmem
  by_cases h : c.id = sender
  · rw [if_pos h] at heq
    exact Option.noConfusion heq
  · rw [if_neg h] at heq
    exact h (congrArg Prod.fst (Option.some.inj heq))

/-- helper: every registered connection other than the sender is a recipient
of a broadcast excluding the sender. -/
lemma mem_broadcastExcludingSender (clients : List Conn) (message : Msg)
    (sender : Nat) {c : Conn} (hc : c ∈ clients) (hne : c.id ≠ sender) :
    (c.id, message) ∈ broadcastExcludingSender clients message sender := by
  rw [broadcastExcludingSender, List.mem_filterMap]
  exact ⟨c, hc, by rw [if_neg hne]⟩

/-- helper: the deliveries of notifyExcludingSender are exactly those of
broadcastExcludingSender on the n-prefixed payload, whatever the JSON
decoding does. -/
lemma notifyExcludingSender_deliveries (decode : Msg → Option EventNotify)
    (clients : List Conn) (eventMessage : Msg) (sender : Nat) :
    (notifyExcludingSender decode clients eventMessage sender).deliveries =
      broadcastExcludingSender clients ('n' :: eventMessage.drop 2) sender := by
  rw [notifyExcludingSender]
  cases decode (eventMessage.drop 2) <;> rfl

/-- helper: the host notification of notifyExcludingSender is exactly the
JSON decoding result of the payload. -/
lemma notifyExcludingSender_hostNotify (decode : Msg → Option EventNotify)
    (clients : List Conn) (eventMessage : Msg) (sender : Nat) :
    (notifyExcludingSender decode clients eventMessage sender).hostNotify =
      decode (eventMessage.drop 2) := by
  rw [notifyExcludingSender]
  cases decode (eventMessage.drop 2) <;> rfl

/-- helper: notifyExcludingSender logs a decode error exactly when the JSON
decoding of the payload fails. -/
lemma notifyExcludingSender_errorLogged (decode : Msg → Option EventNotify)
    (clients : List Conn) (eventMessage : Msg) (sender : Nat) :
    (notifyExcludingSender decode clients eventMessage sender).decodeErrorLogged
      = (decode (eventMessage.drop 2)).isNone := by
  rw [notifyExcludingSender]
  cases decode (eventMessage.drop 2) <;> rfl

/-- helper: taking two characters of a twice-consed list. -/
lemma take_two_cons_cons (a b : Char) (l : List Char) :
    (a :: b :: l).take 2 = [a, b] := rfl

/-- helper: evaluation of the read-loop body on a subscribe message. -/
lemma handleIPCMessage_eb (dec : Msg → Option EventNotify)
    (dis : Msg → Msg × Option Msg) (clients : List Conn) (sender : Conn)
    (nm : Msg) (hnm : nm ≠ []) :
    handleIPCMessage dec dis clients sender ('E' :: 'B' :: nm) =
      { deliveries := [], hostNotify := none, dispatched := none,
        response := none, newSubs := storeEvent sender.subs nm,
        dispatchErrorLogged := false, decodeErrorLogged := false } := by
  have h0 : 0 < nm.length := List.length_pos.mpr hnm
  have h1 : ¬(('E' :: 'B' :: nm).length = 4 ∧
      'E' :: 'B' :: nm = ['d', 'r', 'a', 'g']) := by
    rintro ⟨-, h⟩
    injection h with hhead htail
    exact absurd hhead (by decide)
  have h2 : ¬(2 < ('E' :: 'B' :: nm).length ∧
      ('E' :: 'B' :: nm).take 2 = ['E', 'E']) := by
    rintro ⟨-, h⟩
    rw [take_two_cons_cons] at h
    exact absurd h (by decide)
  have h3 : 2 < ('E' :: 'B' :: nm).length ∧
      ('E' :: 'B' :: nm).take 2 = ['E', 'B'] := by
    refine ⟨?_, rfl⟩
    simp only [List.length_cons]
    omega
  rw [handleIPCMessage, if_neg h1, if_neg h2, if_pos h3]
  rfl

/-- helper: evaluation of the read-loop body on an unsubscribe message. -/
lemma handleIPCMessage_ex (dec : Msg → Option EventNotify)
    (dis : Msg → Msg × Option Msg) (clients : List Conn) (sender : Conn)
    (nm : Msg) (hnm : nm ≠ []) :
    handleIPCMessage dec dis clients sender ('E' :: 'X' :: nm) =
      { deliveries := [], hostNotify := none,
        dispatched := some ('E' :: 'X' :: nm),
        response := (processDispatch dis ('E' :: 'X' :: nm)).1,
        newSubs := deleteEvent sender.subs nm,
        dispatchErrorLogged := (processDispatch dis ('E' :: 'X' :: nm)).2,
        decodeErrorLogged := false } := by
  have h0 : 0 < nm.length := List.length_pos.mpr hnm
  have h1 : ¬(('E' :: 'X' :: nm).length = 4 ∧
      'E' :: 'X' :: nm = ['d', 'r', 'a', 'g']) := by
    rintro ⟨-, h⟩
    injection h with hhead htail
    exact absurd hhead (by decide)
  have h2 : ¬(2 < ('E' :: 'X' :: nm).length ∧
      ('E' :: 'X' :: nm).take 2 = ['E', 'E']) := by
    rintro ⟨-, h⟩
    rw [take_two_cons_cons] at h
    exact absurd h (by decide)
  have h3 : ¬(2 < ('E' :: 'X' :: nm).length ∧
      ('E' :: 'X' :: nm).take 2 = ['E', 'B']) := by
    rintro ⟨-, h⟩
    rw [take_two_cons_cons] at h
    exact absurd h (by decide)
  have h4 : 2 < ('E' :: 'X' :: nm).length ∧
      ('E' :: 'X' :: nm).take 2 = ['E', 'X'] := by
    refine ⟨?_, rfl⟩
    simp only [List.length_cons]
    omega
  rw [handleIPCMessage, if_neg h1, if_neg h2, if_neg h3, if_pos h4]
  rfl

/-- helper: evaluation of the read-loop body on an event-broadcast
message. -/
lemma handleIPCMessage_ee (dec : Msg → Option EventNotify)
    (dis : Msg → Msg × Option Msg) (clients : List Conn) (sender : Conn)
    (rest : Msg) (hrest : rest ≠ []) :
    handleIPCMessage dec dis clients sender ('E' :: 'E' :: rest) =
      { deliveries := (notifyExcludingSender dec clients
          ('E' :: 'E' :: rest) sender.id).deliveries,
        hostNotify := (notifyExcludingSender dec clients
          ('E' :: 'E' :: rest) sender.id).hostNotify,
        dispatched := some ('E' :: 'E' :: rest),
        response := (processDispatch dis ('E' :: 'E' :: rest)).1,
        newSubs := sender.subs,
        dispatchErrorLogged := (processDispatch dis ('E' :: 'E' :: rest)).2,
        decodeErrorLogged := (notifyExcludingSender dec clients
          ('E' :: 'E' :: rest) sender.id).decodeErrorLogged } := by
  have h0 : 0 < rest.length := List.length_pos.mpr hrest
  have h1 : ¬(('E' :: 'E' :: rest).length = 4 ∧
      'E' :: 'E' :: rest = ['d', 'r', 'a', 'g']) := by
    rintro ⟨-, h⟩
    injection h with hhead htail
    exact absurd hhead (by decide)
  have h2 : 2 < ('E' :: 'E' :: rest).length ∧
      ('E' :: 'E' :: rest).take 2 = ['E', 'E'] := by
    refine ⟨?_, rfl⟩
    simp only [List.length_cons]
    omega
  rw [handleIPCMessage, if_neg h1, if_pos h2]

/-- helper: evaluation of the read-loop body on a generic-dispatch
message. -/
lemma handleIPCMessage_generic (dec : Msg → Option EventNotify)
    (dis : Msg → Msg × Option Msg) (clients : List Conn) (sender : Conn)
    (m : Msg) (hd : m ≠ ['d', 'r', 'a', 'g'])
    (hee : ¬(2 < m.length ∧ m.take 2 = ['E', 'E']))
    (heb : ¬(2 < m.length ∧ m.take 2 = ['E', 'B']))
    (hex : ¬(2 < m.length ∧ m.take 2 = ['E', 'X'])) :
    handleIPCMessage dec dis clients sender m =
      { deliveries := [], hostNotify := none, dispatched := some m,
        response := (processDispatch dis m).1, newSubs := sender.subs,
        dispatchErrorLogged := (processDispatch dis m).2,
        decodeErrorLogged := false } := by
  have h1 : ¬(m.length = 4 ∧ m = ['d', 'r', 'a', 'g']) := by
    rintro ⟨-, h⟩
    exact hd h
  rw [handleIPCMessage, if_neg h1, if_neg hee, if_neg heb, if_neg hex]

/-- helper: the read-loop body leaves the sender's eventCache unchanged, or
stores the name of a subscribe message, or deletes the name of an
unsubscribe message. -/
lemma handleIPCMessage_newSubs_cases (dec : Msg → Option EventNotify)
    (dis : Msg → Msg × Option Msg) (clients : List Conn) (sender : Conn)
    (m : Msg) :
    (handleIPCMessage dec dis clients sender m).newSubs = sender.subs ∨
    (∃ nm, m = 'E' :: 'B' :: nm ∧
      (handleIPCMessage dec dis clients sender m).newSubs =
        storeEvent sender.subs nm) ∨
    (∃ nm, m = 'E' :: 'X' :: nm ∧
      (handleIPCMessage dec dis clients sender m).newSubs =
        deleteEvent sender.subs nm) := by
  rw [handleIPCMessage]
  split_ifs with h1 h2 h3 h4
  · exact Or.inl rfl
  · exact Or.inl rfl
  · refine Or.inr (Or.inl ⟨m.drop 2, ?_, rfl⟩)
    conv_lhs => rw [← List.take_append_drop 2 m]
    rw [h3.2]
    rfl
  · refine Or.inr (Or.inr ⟨m.drop 2, ?_, rfl⟩)
    conv_lhs => rw [← List.take_append_drop 2 m]
    rw [h4.2]
    rfl
  · exact Or.inl rfl

/-- helper: a subscribed connection is among the recipients of a filtered
broadcast. -/
lemma mem_broadcast_of_subscribed (clients : List Conn) (message nm : Msg)
    {c : Conn} (hc : c ∈ clients) (hsub : nm ∈ c.subs) :
    (c.id, message) ∈ broadcast clients message nm := by
  rw [broadcast, List.mem_filterMap]
  refine ⟨c, hc, ?_⟩
  rw [if_neg]
  rintro ⟨-, habs⟩
  exact habs hsub

/-- helper: with no required event name, every registered connection is a
recipient of the broadcast. -/
lemma mem_broadcast_of_no_name (clients : List Conn) (message : Msg)
    {c : Conn} (hc : c ∈ clients) :
    (c.id, message) ∈ broadcast clients message [] := by
  rw [broadcast, List.mem_filterMap]
  refine ⟨c, hc, ?_⟩
  rw [if_neg]
  rintro ⟨habs, -⟩
  exact habs rfl

/-- helper: storing an event name makes it present. -/
lemma mem_storeEvent (subs : List Msg) (nm : Msg) :
    nm ∈ storeEvent subs nm := by
  rw [storeEvent]
  split_ifs with h
  · exact h
  · exact List.mem_cons_self nm subs

/-- helper: storing an event name keeps every present name present. -/
lemma mem_storeEvent_of_mem (subs : List Msg) (nm nm2 : Msg)
    (h : nm ∈ subs) : nm ∈ storeEvent subs nm2 := by
  rw [storeEvent]
  split_ifs
  · exact h
  · exact List.mem_cons_of_mem nm2 h

/-- helper: deleting an event name makes it absent. -/
lemma not_mem_deleteEvent (subs : List Msg) (nm : Msg) :
    nm ∉ deleteEvent subs nm := by
  intro h
  rw [deleteEvent, List.mem_filter] at h
  simpa using h.2

/-- helper: deleting one event name keeps every other present name
present. -/
lemma mem_deleteEvent_of_ne (subs : List Msg) (nm nm2 : Msg)
    (h : nm ∈ subs) (hne : nm ≠ nm2) : nm ∈ deleteEvent subs nm2 := by
  rw [deleteEvent, List.mem_filter]
  exact ⟨h, by simpa using hne⟩

/-- helper: the sent log of draining a queue through window.WailsInvoke in
the connected state is the old log followed by the queue in order; the state
stays connected and the queue field is untouched by the sends. -/
lemma foldl_wailsInvoke_connected (q : List Msg) :
    ∀ s : ClientState, s.connected = true →
    (q.foldl wailsInvoke s).sent = s.sent ++ q ∧
    (q.foldl wailsInvoke s).connected = true ∧
    (q.foldl wailsInvoke s).queue = s.queue := by
  induction q with
  | nil => intro s hs; simpa using hs
  | cons m rs ih =>
    intro s hs
    have hstep : wailsInvoke s m = { s with sent := s.sent ++ [m] } := by
      rw [wailsInvoke, if_pos hs]
    rcases ih { s with sent := s.sent ++ [m] } hs with ⟨h1, h2, h3⟩
    refine ⟨?_, ?_, ?_⟩
    · rw [List.foldl_cons, hstep, h1]
      simp
    · rw [List.foldl_cons, hstep, h2]
    · rw [List.foldl_cons, hstep, h3]

/-! Claim theorems. -/

/-- C1 (counterexample): the complete message C brace quote a colon b brace,
split into the two frames C and the remainder, is not reassembled into the
complete message: the reassembler tests the three-byte marker on the first
frame only, so the first frame C alone is returned as a complete message,
which differs from the original. -/
theorem reassembly_split_counterexample :
    reassembleOne [['C'], ['{', '"', 'a', '"', ':', '"', 'b', '"', '}']] =
      some (['C'], [['{', '"', 'a', '"', ':', '"', 'b', '"', '}']]) ∧
    (['C'] : Msg) ≠ ['C', '{', '"', 'a', '"', ':', '"', 'b', '"', '}'] := by
  decide

/-- C1 (amended): a single frame not beginning with the three bytes C brace
quote passes through reassembly unchanged; a message beginning with C brace
quote split across N frames reassembles to the identical complete message,
the concatenation of all frames, provided the first frame carries the full
three-byte marker, no frame before the last ends with quote brace, and the
final frame ends with quote brace; a one-frame such message is complete when
it itself ends with quote brace. -/
theorem reassembly_amended :
    (∀ (m : Msg) (fs : List Msg), hasPrefixB m ['C', '{', '"'] = false →
      reassembleOne (m :: fs) = some (m, fs)) ∧
    (∀ (f0 last : Msg) (mids : List Msg),
      hasPrefixB f0 ['C', '{', '"'] = true →
      (∀ f ∈ f0 :: mids, hasSuffixB f ['"', '}'] = false) →
      hasSuffixB last ['"', '}'] = true →
      reassembleOne (f0 :: (mids ++ [last])) =
        some (f0 ++ mids.flatten ++ last, [])) ∧
    (∀ f0 : Msg, hasPrefixB f0 ['C', '{', '"'] = true →
      hasSuffixB f0 ['"', '}'] = true →
      reassembleOne [f0] = some (f0, [])) := by
  refine ⟨?_, ?_, ?_⟩
  · intro m fs hp
    simp [reassembleOne, hp]
  · intro f0 last mids hp hmid hlast
    simp only [reassembleOne, hp, if_true]
    exact reassembleLoop_complete mids f0 f0 last (hmid f0 (by simp))
      (fun f hf => hmid f (by simp [hf])) hlast
  · intro f0 hp hs
    simp only [reassembleOne, hp, if_true]
    rw [reassembleLoop.eq_def]
    simp [hs]

/-- C1 (witness): the amended reassembly theorem applied to a plain two-byte
message, to a two-frame split of a fragmented message, and to the same
fragmented message arriving whole. -/
theorem reassembly_amended_witness :
    reassembleOne [['x', 'y'], ['z']] = some (['x', 'y'], [['z']]) ∧
    reassembleOne [['C', '{', '"', 'a', '"'], [':', '"', 'b', '"', '}']] =
      some (['C', '{', '"', 'a', '"', ':', '"', 'b', '"', '}'], []) ∧
    reassembleOne [['C', '{', '"', 'a', '"', ':', '"', 'b', '"', '}']] =
      some (['C', '{', '"', 'a', '"', ':', '"', 'b', '"', '}'], []) := by
  refine ⟨reassembly_amended.1 ['x', 'y'] [['z']] (by decide), ?_,
    reassembly_amended.2.2 _ (by decide) (by decide)⟩
  have h := reassembly_amended.2.1 ['C', '{', '"', 'a', '"']
    [':', '"', 'b', '"', '}'] [] (by decide) (by decide) (by decide)
  simpa using h

/-- C2: an event-broadcast message is never delivered back to its sender;
every other registered connection receives it with the first two bytes
replaced by the prefix n, regardless of its subscription state; the host is
additionally informed by one direct call whenever the payload decodes; and
the read loop routes an EE-prefixed message into exactly this rebroadcast. -/
theorem broadcast_excluding_sender_delivery
    (decode : Msg → Option EventNotify) (dis : Msg → Msg × Option Msg)
    (clients : List Conn) (sender : Conn) (rest : Msg) (hrest : rest ≠ []) :
    ((handleIPCMessage decode dis clients sender
        ('E' :: 'E' :: rest)).deliveries =
      (notifyExcludingSender decode clients ('E' :: 'E' :: rest)
        sender.id).deliveries) ∧
    (∀ m : Msg, (sender.id, m) ∉
      (notifyExcludingSender decode clients ('E' :: 'E' :: rest)
        sender.id).deliveries) ∧
    (∀ c ∈ clients, c.id ≠ sender.id →
      (c.id, 'n' :: rest) ∈
        (notifyExcludingSender decode clients ('E' :: 'E' :: rest)
          sender.id).deliveries) ∧
    (∀ ev : EventNotify, decode rest = some ev →
      (notifyExcludingSender decode clients ('E' :: 'E' :: rest)
        sender.id).hostNotify = some ev) := by
  refine ⟨?_, ?_, ?_, ?_⟩
  · rw [handleIPCMessage_ee decode dis clients sender rest hrest]
  · intro m
    rw [notifyExcludingSender_deliveries]
    exact not_mem_broadcastExcludingSender clients _ sender.id m
  · intro c hc hne
    rw [notifyExcludingSender_deliveries]
    exact mem_broadcastExcludingSender clients _ sender.id hc hne
  · intro ev hev
    rw [notifyExcludingSender_hostNotify]
    exact hev

/-- C2 (witness): the exclusion theorem applied to a concrete registry of
two connections, the sender being connection 1. -/
theorem broadcast_excluding_sender_delivery_witness :
    ((1 : Nat), ['n', 'x']) ∉
      (notifyExcludingSender (fun p => some ⟨p, []⟩)
        [⟨1, []⟩, ⟨2, []⟩] ['E', 'E', 'x'] 1).deliveries ∧
    ((2 : Nat), ['n', 'x']) ∈
      (notifyExcludingSender (fun p => some ⟨p, []⟩)
        [⟨1, []⟩, ⟨2, []⟩] ['E', 'E', 'x'] 1).deliveries ∧
    (notifyExcludingSender (fun p => some ⟨p, []⟩)
      [⟨1, []⟩, ⟨2, []⟩] ['E', 'E', 'x'] 1).hostNotify =
        some ⟨['x'], []⟩ := by
  have h := broadcast_excluding_sender_delivery (fun p => some ⟨p, []⟩)
    (fun _ => ([], none)) [⟨1, []⟩, ⟨2, []⟩] ⟨1, []⟩ ['x'] (by decide)
  exact ⟨h.2.1 ['n', 'x'], h.2.2.1 ⟨2, []⟩ (by decide) (by decide),
    h.2.2.2 ⟨['x'], []⟩ rfl⟩

/-- C3: subscribing via an EB message makes the event name present in the
sender's eventCache; processing any message other than the matching EX
preserves it; a subscribed connection receives every broadcast requiring the
name; an unsubscribed connection receives nothing from such a broadcast; and
a broadcast with no required name reaches every registered connection. -/
theorem broadcast_subscription_filtering
    (decode : Msg → Option EventNotify) (dis : Msg → Msg × Option Msg)
    (clients : List Conn) (message nm : Msg) :
    (∀ sender : Conn, nm ≠ [] →
      nm ∈ (handleIPCMessage decode dis clients sender
        ('E' :: 'B' :: nm)).newSubs) ∧
    (∀ (sender : Conn) (m : Msg), nm ∈ sender.subs → m ≠ 'E' :: 'X' :: nm →
      nm ∈ (handleIPCMessage decode dis clients sender m).newSubs) ∧
    (∀ c ∈ clients, nm ∈ c.subs →
      (c.id, message) ∈ broadcast clients message nm) ∧
    ((clients.map Conn.id).Nodup → nm ≠ [] →
      ∀ c ∈ clients, nm ∉ c.subs →
      ∀ m : Msg, (c.id, m) ∉ broadcast clients message nm) ∧
    (∀ c ∈ clients, (c.id, message) ∈ broadcast clients message []) := by
  refine ⟨?_, ?_, ?_, ?_, ?_⟩
  · intro sender hnm
    rw [handleIPCMessage_eb decode dis clients sender nm hnm]
    exact mem_storeEvent sender.subs nm
  · intro sender m hmem hne
    rcases handleIPCMessage_newSubs_cases decode dis clients sender m with
      h | ⟨nm2, -, h⟩ | ⟨nm2, hm, h⟩
    · rw [h]; exact hmem
    · rw [h]; exact mem_storeEvent_of_mem sender.subs nm nm2 hmem
    · rw [h]
      refine mem_deleteEvent_of_ne sender.subs nm nm2 hmem ?_
      intro hq
      exact hne (by rw [hm, hq])
  · intro c hc hsub
    exact mem_broadcast_of_subscribed clients message nm hc hsub
  · intro hnd hnm c hc hnsub m hmem
    rw [broadcast, List.mem_filterMap] at hmem
    obtain ⟨a, ha, heq⟩ := hmem
    by_cases hcond : nm ≠ [] ∧ nm ∉ a.subs
    · rw [if_pos hcond] at heq
      exact Option.noConfusion heq
    · rw [if_neg hcond] at heq
      have hid : a.id = c.id := congrArg Prod.fst (Option.some.inj heq)
      have hac : a = c := List.inj_on_of_nodup_map hnd ha hc hid
      push_neg at hcond
      rw [hac] at hcond
      exact hnsub (hcond hnm)
  · intro c hc
    exact mem_broadcast_of_no_name clients message hc

/-- C3 (witness): the filtering theorem applied to a concrete registry where
connection 2 is subscribed to event f and connection 1 is not. -/
theorem broadcast_subscription_filtering_witness :
    ['f'] ∈ (handleIPCMessage (fun _ => none) (fun _ => ([], none))
      [⟨1, []⟩, ⟨2, [['f']]⟩] ⟨1, []⟩ ['E', 'B', 'f']).newSubs ∧
    ((2 : Nat), ['m']) ∈ broadcast [⟨1, []⟩, ⟨2, [['f']]⟩] ['m'] ['f'] ∧
    ((1 : Nat), ['m']) ∉ broadcast [⟨1, []⟩, ⟨2, [['f']]⟩] ['m'] ['f'] ∧
    ((1 : Nat), ['m']) ∈ broadcast [⟨1, []⟩, ⟨2, [['f']]⟩] ['m'] [] := by
  have h := broadcast_subscription_filtering (fun _ => none)
    (fun _ => ([], none)) [⟨1, []⟩, ⟨2, [['f']]⟩] ['m'] ['f']
  exact ⟨h.1 ⟨1, []⟩ (by decide), h.2.2.1 ⟨2, [['f']]⟩ (by decide) (by decide),
    h.2.2.2.1 (by decide) (by decide) ⟨1, []⟩ (by decide) (by decide) ['m'],
    h.2.2.2.2 ⟨1, []⟩ (by decide)⟩

/-- C4 (counterexample): both an unsubscribe message EXa and an
event-broadcast message EEa are additionally handed verbatim to the
dispatcher by the read loop, contradicting the claim that only messages
matching none of the special prefixes are generic-dispatched. -/
theorem exclusive_dispatch_counterexample :
    (handleIPCMessage (fun _ => none) (fun _ => ([], none)) [] ⟨0, []⟩
      ['E', 'X', 'a']).dispatched = some ['E', 'X', 'a'] ∧
    (handleIPCMessage (fun _ => none) (fun _ => ([], none)) [] ⟨0, []⟩
      ['E', 'E', 'a']).dispatched = some ['E', 'E', 'a'] := by
  decide

/-- C4 (amended): the read loop maps each complete message, in priority
order drag, EE, EB, EX, otherwise, to exactly one branch; among these only
drag and EB skip the dispatcher: a drag message produces no response, no
broadcast and no dispatch, a subscribe message only updates the eventCache,
while event-broadcast and unsubscribe messages are, in addition to their
event effect, handed to the dispatcher verbatim, as is any other message. -/
theorem exclusive_dispatch_amended (decode : Msg → Option EventNotify)
    (dis : Msg → Msg × Option Msg) (clients : List Conn) (sender : Conn) :
    (handleIPCMessage decode dis clients sender ['d', 'r', 'a', 'g'] =
      { deliveries := [], hostNotify := none, dispatched := none,
        response := none, newSubs := sender.subs,
        dispatchErrorLogged := false, decodeErrorLogged := false }) ∧
    (∀ nm : Msg, nm ≠ [] →
      (handleIPCMessage decode dis clients sender
        ('E' :: 'B' :: nm)).dispatched = none ∧
      (handleIPCMessage decode dis clients sender
        ('E' :: 'B' :: nm)).response = none ∧
      (handleIPCMessage decode dis clients sender
        ('E' :: 'B' :: nm)).deliveries = []) ∧
    (∀ rest : Msg, rest ≠ [] →
      (handleIPCMessage decode dis clients sender
        ('E' :: 'E' :: rest)).dispatched = some ('E' :: 'E' :: rest)) ∧
    (∀ nm : Msg, nm ≠ [] →
      (handleIPCMessage decode dis clients sender
        ('E' :: 'X' :: nm)).dispatched = some ('E' :: 'X' :: nm)) ∧
    (∀ m : Msg, m ≠ ['d', 'r', 'a', 'g'] →
      ¬(2 < m.length ∧ m.take 2 = ['E', 'E']) →
      ¬(2 < m.length ∧ m.take 2 = ['E', 'B']) →
      ¬(2 < m.length ∧ m.take 2 = ['E', 'X']) →
      (handleIPCMessage decode dis clients sender m).dispatched = some m ∧
      (handleIPCMessage decode dis clients sender m).deliveries = [] ∧
      (handleIPCMessage decode dis clients sender m).hostNotify = none) := by
  refine ⟨?_, ?_, ?_, ?_, ?_⟩
  · rw [handleIPCMessage, if_pos ⟨rfl, rfl⟩]
  · intro nm hnm
    rw [handleIPCMessage_eb decode dis clients sender nm hnm]
    exact ⟨rfl, rfl, rfl⟩
  · intro rest hrest
    rw [handleIPCMessage_ee decode dis clients sender rest hrest]
  · intro nm hnm
    rw [handleIPCMessage_ex decode dis clients sender nm hnm]
  · intro m hd hee heb hex
    rw [handleIPCMessage_generic decode dis clients sender m hd hee heb hex]
    exact ⟨rfl, rfl, rfl⟩

/-- C4 (witness): the amended classification theorem applied to a concrete
subscribe message, which is not dispatched, and to a one-byte generic
message, which is dispatched verbatim. -/
theorem exclusive_dispatch_amended_witness :
    (handleIPCMessage (fun _ => none) (fun _ => ([], none)) [] ⟨0, []⟩
      ['E', 'B', 'a']).dispatched = none ∧
    (handleIPCMessage (fun _ => none) (fun _ => ([], none)) [] ⟨0, []⟩
      ['z']).dispatched = some ['z'] := by
  have h := exclusive_dispatch_amended (fun _ => none) (fun _ => ([], none))
    [] ⟨0, []⟩
  exact ⟨(h.2.1 ['a'] (by decide)).1,
    (h.2.2.2.2 ['z'] (by decide) (by decide) (by decide) (by decide)).1⟩

/-- C5: a connection sending the exact bytes reload hands the message
verbatim to the dispatcher, which classifies it as the reload signal (the
dispatcher is modelled from the spec), and the resulting WindowReload call
reloads the desktop frontend window and broadcasts the message reload with
no required event name, reaching every registered connection. -/
theorem reload_broadcast (decode : Msg → Option EventNotify)
    (dis : Msg → Msg × Option Msg) (clients : List Conn) (sender : Conn) :
    ((handleIPCMessage decode dis clients sender
      ['r', 'e', 'l', 'o', 'a', 'd']).dispatched =
        some ['r', 'e', 'l', 'o', 'a', 'd']) ∧
    dispatcherTriggersReload ['r', 'e', 'l', 'o', 'a', 'd'] = true ∧
    (windowReload clients).hostReload = true ∧
    (∀ c ∈ clients, (c.id, ['r', 'e', 'l', 'o', 'a', 'd']) ∈
      (windowReload clients).deliveries) := by
  refine ⟨?_, rfl, rfl, ?_⟩
  · rw [handleIPCMessage_generic decode dis clients sender _ (by decide)
      (by decide) (by decide) (by decide)]
  · intro c hc
    exact mem_broadcast_of_no_name clients _ hc

/-- C5 (witness): the reload theorem applied to a one-connection registry
whose only client has an unrelated subscription. -/
theorem reload_broadcast_witness :
    ((1 : Nat), ['r', 'e', 'l', 'o', 'a', 'd']) ∈
      (windowReload [⟨1, [['f']]⟩]).deliveries ∧
    (handleIPCMessage (fun _ => none) (fun _ => ([], none)) [⟨1, [['f']]⟩]
      ⟨1, [['f']]⟩ ['r', 'e', 'l', 'o', 'a', 'd']).dispatched =
        some ['r', 'e', 'l', 'o', 'a', 'd'] := by
  have h := reload_broadcast (fun _ => none) (fun _ => ([], none))
    [⟨1, [['f']]⟩] ⟨1, [['f']]⟩
  exact ⟨h.2.2.2 ⟨1, [['f']]⟩ (by decide), h.1⟩

/-- C6 (counterexample): with an external handler that returns a nonempty
result together with an error, the read loop logs the error and still
writes the result back to the sender, so a handler error does not imply
that no response is sent. -/
theorem dispatch_error_response_counterexample :
    (handleIPCMessage (fun _ => none) (fun _ => (['x'], some ['e'])) []
      ⟨0, []⟩ ['z']).dispatchErrorLogged = true ∧
    (handleIPCMessage (fun _ => none) (fun _ => (['x'], some ['e'])) []
      ⟨0, []⟩ ['z']).response = some ['x'] := by
  decide

/-- C6 (amended): for every generic-dispatch message, an error returned by
the external handler is logged; the textual result is written back to the
sending connection exactly when it is nonempty, independently of the error;
an empty result produces no response; and dispatch performs no broadcast
and no host notification. -/
theorem dispatch_adapter_amended (decode : Msg → Option EventNotify)
    (dis : Msg → Msg × Option Msg) (clients : List Conn) (sender : Conn)
    (m : Msg) (hd : m ≠ ['d', 'r', 'a', 'g'])
    (hee : ¬(2 < m.length ∧ m.take 2 = ['E', 'E']))
    (heb : ¬(2 < m.length ∧ m.take 2 = ['E', 'B']))
    (hex : ¬(2 < m.length ∧ m.take 2 = ['E', 'X'])) :
    ((dis m).2.isSome = true →
      (handleIPCMessage decode dis clients sender m).dispatchErrorLogged
        = true) ∧
    ((dis m).1 = [] →
      (handleIPCMessage decode dis clients sender m).response = none) ∧
    ((dis m).1 ≠ [] →
      (handleIPCMessage decode dis clients sender m).response
        = some (dis m).1) ∧
    (handleIPCMessage decode dis clients sender m).deliveries = [] ∧
    (handleIPCMessage decode dis clients sender m).hostNotify = none := by
  rw [handleIPCMessage_generic decode dis clients sender m hd hee heb hex]
  refine ⟨?_, ?_, ?_, rfl, rfl⟩
  · intro h
    simpa [processDispatch] using h
  · intro h
    simp [processDispatch, h]
  · intro h
    simp [processDispatch, h]

/-- C6 (witness): the amended dispatch theorem applied to a handler with a
nonempty result and no error, and to a handler with an empty result and an
error. -/
theorem dispatch_adapter_amended_witness :
    (handleIPCMessage (fun _ => none) (fun _ => (['x'], none)) [] ⟨0, []⟩
      ['z']).response = some ['x'] ∧
    (handleIPCMessage (fun _ => none) (fun _ => ([], some ['e'])) [] ⟨0, []⟩
      ['z']).response = none ∧
    (handleIPCMessage (fun _ => none) (fun _ => ([], some ['e'])) [] ⟨0, []⟩
      ['z']).dispatchErrorLogged = true := by
  refine ⟨?_, ?_, ?_⟩
  · exact (dispatch_adapter_amended (fun _ => none) (fun _ => (['x'], none))
      [] ⟨0, []⟩ ['z'] (by decide) (by decide) (by decide)
      (by decide)).2.2.1 (by decide)
  · exact (dispatch_adapter_amended (fun _ => none)
      (fun _ => ([], some ['e'])) [] ⟨0, []⟩ ['z'] (by decide) (by decide)
      (by decide) (by decide)).2.1 rfl
  · exact (dispatch_adapter_amended (fun _ => none)
      (fun _ => ([], some ['e'])) [] ⟨0, []⟩ ['z'] (by decide) (by decide)
      (by decide) (by decide)).1 rfl

/-- C7: when the payload of an event-broadcast message fails to decode, the
rebroadcast of the n-prefixed raw bytes to the other browser connections
still happens, the decode error is logged, only the direct host
notification is skipped, and the sender's subscription state is
unchanged. -/
theorem event_decode_failure (decode : Msg → Option EventNotify)
    (dis : Msg → Msg × Option Msg) (clients : List Conn) (sender : Conn)
    (rest : Msg) (hrest : rest ≠ []) (hbad : decode rest = none) :
    ((handleIPCMessage decode dis clients sender
        ('E' :: 'E' :: rest)).deliveries =
      broadcastExcludingSender clients ('n' :: rest) sender.id) ∧
    (handleIPCMessage decode dis clients sender
      ('E' :: 'E' :: rest)).hostNotify = none ∧
    (handleIPCMessage decode dis clients sender
      ('E' :: 'E' :: rest)).decodeErrorLogged = true ∧
    (handleIPCMessage decode dis clients sender
      ('E' :: 'E' :: rest)).newSubs = sender.subs := by
  rw [handleIPCMessage_ee decode dis clients sender rest hrest]
  refine ⟨?_, ?_, ?_, rfl⟩
  · rw [notifyExcludingSender_deliveries]
    rfl
  · rw [notifyExcludingSender_hostNotify]
    exact hbad
  · rw [notifyExcludingSender_errorLogged]
    show (decode rest).isNone = true
    rw [hbad]
    rfl

/-- C7 (witness): the decode-failure theorem applied to an always-failing
decoder on a two-connection registry. -/
theorem event_decode_failure_witness :
    (handleIPCMessage (fun _ => none) (fun _ => ([], none))
      [⟨1, []⟩, ⟨2, []⟩] ⟨1, []⟩ ['E', 'E', 'x']).deliveries =
        broadcastExcludingSender [⟨1, []⟩, ⟨2, []⟩] ['n', 'x'] 1 ∧
    (handleIPCMessage (fun _ => none) (fun _ => ([], none))
      [⟨1, []⟩, ⟨2, []⟩] ⟨1, []⟩ ['E', 'E', 'x']).hostNotify = none ∧
    (handleIPCMessage (fun _ => none) (fun _ => ([], none))
      [⟨1, []⟩, ⟨2, []⟩] ⟨1, []⟩ ['E', 'E', 'x']).decodeErrorLogged = true ∧
    (handleIPCMessage (fun _ => none) (fun _ => ([], none))
      [⟨1, []⟩, ⟨2, []⟩] ⟨1, []⟩ ['E', 'E', 'x']).newSubs = [] :=
  event_decode_failure (fun _ => none) (fun _ => ([], none))
    [⟨1, []⟩, ⟨2, []⟩] ⟨1, []⟩ ['x'] (by decide) rfl

/-- C8: a message submitted while disconnected is appended to the queue and
nothing is sent; a message submitted while connected is sent immediately
and not queued; and on the transition to connected, setupIPCBridge drains
the whole queue to the transport in original FIFO order exactly once,
leaving the queue empty. -/
theorem reconnector_queue_fifo (s : ClientState) (m : Msg) :
    (s.connected = false →
      wailsInvoke s m = { s with queue := s.queue ++ [m] }) ∧
    (s.connected = true →
      wailsInvoke s m = { s with sent := s.sent ++ [m] }) ∧
    (setupIPCBridge s).sent = s.sent ++ s.queue ∧
    (setupIPCBridge s).queue = [] ∧
    (setupIPCBridge s).connected = true := by
  have hdrain := foldl_wailsInvoke_connected s.queue
    { s with connected := true } rfl
  refine ⟨?_, ?_, ?_, rfl, ?_⟩
  · intro h
    rw [wailsInvoke, if_neg (by simp [h])]
  · intro h
    rw [wailsInvoke, if_pos h]
  · show (s.queue.foldl wailsInvoke { s with connected := true }).sent
      = s.sent ++ s.queue
    exact hdrain.1
  · show (s.queue.foldl wailsInvoke { s with connected := true }).connected
      = true
    exact hdrain.2.1

/-- C8 (witness): the reconnector theorem applied to a disconnected client
with an empty queue, and to a disconnected client holding two queued
messages that are then drained in order. -/
theorem reconnector_queue_fifo_witness :
    wailsInvoke ⟨false, [], []⟩ ['a'] = ⟨false, [['a']], []⟩ ∧
    (setupIPCBridge ⟨false, [['a'], ['b']], []⟩).sent = [['a'], ['b']] ∧
    (setupIPCBridge ⟨false, [['a'], ['b']], []⟩).queue = [] := by
  have h1 := reconnector_queue_fifo (⟨false, [], []⟩ : ClientState) ['a']
  have h2 := reconnector_queue_fifo
    (⟨false, [['a'], ['b']], []⟩ : ClientState) ['a']
  exact ⟨h1.1 rfl, h2.2.2.1, h2.2.2.2.1⟩

/-- C9: after a subscribe message for an event name, an unsubscribe message
for the same name removes delivery eligibility: the name is absent from the
resulting eventCache, a broadcast requiring the name skips such a
connection entirely, and repeating the deletion any number of times leaves
the cache identical to deleting once. -/
theorem unsubscribe_idempotent_removal (decode : Msg → Option EventNotify)
    (dis : Msg → Msg × Option Msg) (clients : List Conn) (sender : Conn)
    (nm : Msg) (hnm : nm ≠ []) :
    ((handleIPCMessage decode dis clients
        { sender with subs := (handleIPCMessage decode dis clients sender
            ('E' :: 'B' :: nm)).newSubs }
        ('E' :: 'X' :: nm)).newSubs
      = deleteEvent (storeEvent sender.subs nm) nm) ∧
    nm ∉ deleteEvent (storeEvent sender.subs nm) nm ∧
    (∀ subs : List Msg,
      deleteEvent (deleteEvent subs nm) nm = deleteEvent subs nm) ∧
    (∀ (message : Msg) (subs : List Msg),
      broadcast [{ sender with subs := deleteEvent (storeEvent subs nm) nm }]
        message nm = []) := by
  refine ⟨?_, not_mem_deleteEvent _ nm, ?_, ?_⟩
  · rw [handleIPCMessage_eb decode dis clients sender nm hnm,
      handleIPCMessage_ex decode dis clients _ nm hnm]
  · intro subs
    simp only [deleteEvent]
    rw [List.filter_filter]
    simp
  · intro message subs
    have habs : nm ∉ deleteEvent (storeEvent subs nm) nm :=
      not_mem_deleteEvent _ nm
    rw [broadcast]
    simp [hnm, habs]

/-- C9 (witness): the idempotent-removal theorem applied to event name f on
a connection that subscribes and then unsubscribes. -/
theorem unsubscribe_idempotent_removal_witness :
    (handleIPCMessage (fun _ => none) (fun _ => ([], none)) []
      ⟨1, (handleIPCMessage (fun _ => none) (fun _ => ([], none)) [] ⟨1, []⟩
        ['E', 'B', 'f']).newSubs⟩ ['E', 'X', 'f']).newSubs
      = deleteEvent (storeEvent [] ['f']) ['f'] ∧
    broadcast [⟨1, deleteEvent (storeEvent [] ['f']) ['f']⟩] ['m'] ['f']
      = [] := by
  have h := unsubscribe_idempotent_removal (fun _ => none)
    (fun _ => ([], none)) [] ⟨1, []⟩ ['f'] (by decide)
  exact ⟨h.1, h.2.2.2 ['m'] []⟩

/-- C10 (counterexample): with no frontend dev server URL configured, the
path /wails/assetdir, although different from /wails/ipc and /wails/reload,
does not reach the catch-all route: it is served by its own registered
handler, so the claim that every other path reaches the nil wsHandler
fails there. -/
theorem nil_wshandler_counterexample :
    route "" "/wails/assetdir" = RouteTarget.assetdirEndpoint ∧
    RouteTarget.assetdirEndpoint ≠ RouteTarget.catchAllRoute ∧
    "/wails/assetdir" ≠ "/wails/ipc" ∧
    "/wails/assetdir" ≠ "/wails/reload" := by
  decide

/-- C10 (amended): when no frontend dev server URL is configured wsHandler
is left nil; every path other than /wails/ipc, /wails/reload and
/wails/assetdir falls to the catch-all route, where a websocket-upgrade
request invokes ServeHTTP on the nil handler (the reachable, unguarded
error branch) and a non-websocket request is safely served by the asset
server. -/
theorem nil_wshandler_amended (path : String)
    (h1 : path ≠ "/wails/reload") (h2 : path ≠ "/wails/ipc")
    (h3 : path ≠ "/wails/assetdir") :
    wsHandlerIsNil "" = true ∧
    route "" path = RouteTarget.catchAllRoute ∧
    catchAllHandler "" true = CatchAllOutcome.nilHandlerCall ∧
    catchAllHandler "" false = CatchAllOutcome.servedByAssetServer := by
  refine ⟨rfl, ?_, rfl, rfl⟩
  rw [route, if_neg h1, if_neg h2, if_neg]
  rintro ⟨-, hq⟩
  exact h3 hq

/-- C10 (witness): the amended routing theorem applied to an ordinary asset
path. -/
theorem nil_wshandler_amended_witness :
    route "" "/index.html" = RouteTarget.catchAllRoute ∧
    catchAllHandler "" true = CatchAllOutcome.nilHandlerCall :=
  ⟨(nil_wshandler_amended "/index.html" (by decide) (by decide)
      (by decide)).2.1,
   (nil_wshandler_amended "/index.html" (by decide) (by decide)
      (by decide)).2.2.1⟩

end DevServer
